import Mathlib

/-!
Shallow embedding of the queue-management system's token queue lifecycle
and ordering engine, together with proofs about the claims of the
specification.

The embedding follows the JavaScript source:
* src/models/Token.js          (token schema, instance and static methods)
* src/controllers/tokenController.js (generate/call/complete/cancel/transfer)
* src/models/Counter.js        (counter schema, callNextToken)
* src/models/Queue.js          (project queue: removeProject)
* src/services/queueService.js (reorderQueue)

Mongo documents become Lean structures; `Date.now()` values become `Nat`
parameters (`now`, `today`); Mongo queries over a collection become list
filters over an explicit state (`List Token`, `List Project`); fallible
controller actions return an `Except` result paired with the resulting
collection state, so that "no state change on failure" is an actual
proposition about the returned state.
-/

namespace QMS

/-- Token status values of the Token schema enum, plus the extra string
`'serving'` that tokenController.js compares against and assigns (the
schema enum itself lists `in_service`, not `serving`). -/
inductive TokenStatus
  | waiting
  | called
  | serving
  | inService
  | completed
  | cancelled
  | noShow
  | transferred
deriving DecidableEq, Repr

/-- One entry of a token's transferHistory (tokenController.transferToken). -/
structure TransferRec where
  fromDept : Nat
  fromCounter : Option Nat
  toDept : Nat
  toCounter : Option Nat
  reason : String
  transferredBy : Nat
  transferredAt : Nat
deriving DecidableEq, Repr

/-- A Token document (src/models/Token.js), restricted to the fields read
or written by the operations under verification.  Object ids are `Nat`,
dates are `Nat` milliseconds, `businessDate` is the midnight value of the
calendar day the token belongs to. -/
structure Token where
  id : Nat
  customer : Nat
  department : Nat
  counter : Option Nat
  priority : Nat
  queuePosition : Option Nat
  status : TokenStatus
  businessDate : Nat
  issuedAt : Nat
  calledAt : Option Nat
  servedAt : Option Nat
  completedAt : Option Nat
  cancelledAt : Option Nat
  serviceTime : Nat
  completionNotes : Option String
  rating : Option Nat
  cancelledBy : Option Nat
  cancellationReason : Option String
  notifCalled : Bool
  notifCompleted : Bool
  lastModifiedBy : Option Nat
  transferHistory : List TransferRec
deriving DecidableEq, Repr

/-- A fresh waiting token with every optional field unset, as produced by
`new this({...})` in Token.generateToken (schema defaults). -/
def mkToken (id customer department : Nat) (counter : Option Nat)
    (priority pos today now : Nat) : Token :=
  { id := id
    customer := customer
    department := department
    counter := counter
    priority := priority
    queuePosition := some pos
    status := .waiting
    businessDate := today
    issuedAt := now
    calledAt := none
    servedAt := none
    completedAt := none
    cancelledAt := none
    serviceTime := 0
    completionNotes := none
    rating := none
    cancelledBy := none
    cancellationReason := none
    notifCalled := false
    notifCompleted := false
    lastModifiedBy := none
    transferHistory := [] }

/-- `Token.countDocuments({department, status: {$in: ['waiting','called']},
businessDate: today})` from tokenSchema.statics.generateToken. -/
def countActiveQueue (s : List Token) (d today : Nat) : Nat :=
  (s.filter (fun t =>
    t.department == d &&
    (t.status == TokenStatus.waiting || t.status == TokenStatus.called) &&
    t.businessDate == today)).length

/-- tokenSchema.statics.generateToken: computes the queue position as the
current (waiting or called, same business date) count plus one, creates the
token in `waiting` status and saves it.  Returns the new collection state
and the created token.  There is no check on the customer's existing
tokens and no rejection path. -/
def generateToken (s : List Token) (departmentId : Nat) (counterId : Option Nat)
    (customerId priority id today now : Nat) : List Token × Token :=
  let pos := countActiveQueue s departmentId today + 1
  let t := mkToken id customerId departmentId counterId priority pos today now
  (s ++ [t], t)

/-- `Token.findById` specialised to our id-keyed list state. -/
def findTok (s : List Token) (tokenId : Nat) : Option Token :=
  s.find? (fun t => t.id == tokenId)

/-- Save of a mutated document: replace the document with this id. -/
def updateTok (s : List Token) (tokenId : Nat) (f : Token → Token) : List Token :=
  s.map (fun t => if t.id == tokenId then f t else t)

/-- tokenSchema.methods.callToken: sets status `called`, `calledAt`,
`counter`, `lastModifiedBy` and the called-notification flag, then saves.
It does not clear `queuePosition`. -/
def callTok (t : Token) (counterId : Nat) (userId : Option Nat) (now : Nat) : Token :=
  { t with
      status := .called
      calledAt := some now
      counter := some counterId
      lastModifiedBy := userId
      notifCalled := true }

/-- An `AppError(message, statusCode)` thrown by the controllers. -/
structure AppErr where
  message : String
  statusCode : Nat
deriving DecidableEq, Repr

/-- `Math.round(ms / 1000 / 60)`: round a nonnegative millisecond
difference to whole minutes (JavaScript rounds halves up). -/
def jsRoundMin (ms : Nat) : Nat :=
  (ms + 30000) / 60000

/-- tokenController.cancelToken: only `waiting` or `called` tokens can be
cancelled; on success the token gets status `cancelled` with the
cancellation fields set.  No other token is touched: in particular no
queue-position of any remaining token is shifted. -/
def cancelToken (s : List Token) (tokenId userId : Nat) (reason : String)
    (now : Nat) : Except AppErr Unit × List Token :=
  match findTok s tokenId with
  | none => (.error ⟨"Token not found", 404⟩, s)
  | some t =>
    if t.status == TokenStatus.waiting || t.status == TokenStatus.called then
      (.ok (), updateTok s tokenId (fun u =>
        { u with
            status := .cancelled
            cancelledAt := some now
            cancelledBy := some userId
            cancellationReason := some reason }))
    else
      (.error ⟨"Token cannot be cancelled", 400⟩, s)

/-- tokenController.completeToken: rejects any token whose status is not
`serving` before touching any field; on success sets status `completed`,
`completedAt`, the computed service time, notes and rating. -/
def completeToken (s : List Token) (tokenId : Nat) (notes : Option String)
    (rating : Option Nat) (now : Nat) : Except AppErr Unit × List Token :=
  match findTok s tokenId with
  | none => (.error ⟨"Token not found", 404⟩, s)
  | some t =>
    if t.status == TokenStatus.serving then
      let st := match t.servedAt with
        | some sa => jsRoundMin (now - sa)
        | none => 0
      (.ok (), updateTok s tokenId (fun u =>
        { u with
            status := .completed
            completedAt := some now
            serviceTime := st
            completionNotes := notes
            rating := rating }))
    else
      (.error ⟨"Token is not being served", 400⟩, s)

/-- tokenController.transferToken: rejects `completed`/`cancelled` tokens;
otherwise moves the token to the target department and counter, resets its
status to `waiting`, and appends a transfer-history entry.  The token
keeps its old `queuePosition`, and no token of the origin department is
re-sequenced. -/
def transferToken (s : List Token) (tokenId targetDepartmentId : Nat)
    (targetCounterId : Option Nat) (reason : String) (userId now : Nat) :
    Except AppErr Unit × List Token :=
  match findTok s tokenId with
  | none => (.error ⟨"Token not found", 404⟩, s)
  | some t =>
    if t.status == TokenStatus.completed || t.status == TokenStatus.cancelled then
      (.error ⟨"Token cannot be transferred", 400⟩, s)
    else
      (.ok (), updateTok s tokenId (fun u =>
        { u with
            department := targetDepartmentId
            counter := targetCounterId
            status := .waiting
            transferHistory := u.transferHistory ++
              [{ fromDept := u.department
                 fromCounter := u.counter
                 toDept := targetDepartmentId
                 toCounter := targetCounterId
                 reason := reason
                 transferredBy := userId
                 transferredAt := now }] }))

/-- Counter status values (src/models/Counter.js schema enum). -/
inductive CounterStatus
  | active
  | inactive
  | busy
  | onBreak
  | closed
  | maintenance
deriving DecidableEq, Repr

/-- A Counter document (src/models/Counter.js), restricted to the fields
read or written by callNextToken. -/
structure Counter where
  id : Nat
  department : Nat
  status : CounterStatus
  currentOperator : Option Nat
  currentToken : Option Nat
  lastTokenCalledAt : Option Nat
deriving DecidableEq, Repr

/-- Filter of counterSchema.methods.callNextToken's `Token.findOne`:
same department, status `waiting`, business date of the current day. -/
def eligibleNext (c : Counter) (today : Nat) (t : Token) : Bool :=
  t.department == c.department && t.status == TokenStatus.waiting &&
    t.businessDate == today

/-- Ascending comparison on `queuePosition` under Mongo's BSON ordering:
a document missing the field sorts before every numeric value. -/
def posLt : Option Nat → Option Nat → Bool
  | none, none => false
  | none, some _ => true
  | some _, none => false
  | some a, some b => a < b

/-- `sort({priority: -1, queuePosition: 1})`: `a` sorts strictly before
`b` when it has higher priority, or equal priority and smaller position. -/
def sortsBefore (a b : Token) : Bool :=
  b.priority < a.priority ||
    (a.priority == b.priority && posLt a.queuePosition b.queuePosition)

/-- `findOne(filter).sort({priority: -1, queuePosition: 1})`: the first
document of the sorted filtered collection (collection order breaks the
remaining ties). -/
def pickNext (s : List Token) (p : Token → Bool) : Option Token :=
  (s.filter p).foldl
    (fun acc t =>
      match acc with
      | none => some t
      | some u => if sortsBefore t u then some t else some u)
    none

/-- counterSchema.methods.callNextToken: picks the next waiting token of
the counter's department for today; if none exists it returns null without
touching anything; otherwise it calls the token (callToken) and sets the
counter's `currentToken`, `busy` status and `lastTokenCalledAt`.  There is
no check whatsoever on the counter's current state: a counter that already
holds a `currentToken` proceeds exactly the same. -/
def callNextToken (c : Counter) (s : List Token) (today now : Nat) :
    Option Token × Counter × List Token :=
  match pickNext s (eligibleNext c today) with
  | none => (none, c, s)
  | some nt =>
    let nt' := callTok nt c.id c.currentOperator now
    (some nt',
     { c with
         currentToken := some nt.id
         status := .busy
         lastTokenCalledAt := some now },
     updateTok s nt.id (fun t => callTok t c.id c.currentOperator now))

/-- Queue positions of a department's waiting set, in collection order. -/
def waitingPositions (s : List Token) (d : Nat) : List (Option Nat) :=
  (s.filter (fun t => t.department == d && t.status == TokenStatus.waiting)).map
    (fun t => t.queuePosition)

/-- The contiguity property of the spec: the waiting set's positions are
exactly {1..N} (as a multiset: no gaps, no duplicates, all defined). -/
def contiguousB (s : List Token) (d : Nat) : Bool :=
  let ps := waitingPositions s d
  decide (ps.Perm ((List.range' 1 ps.length).map some))

/-- Number of tokens of a customer on a business date whose status lies in
{waiting, called, in_service} (the schema's `isActive` virtual). -/
def activeCount (s : List Token) (customerId today : Nat) : Nat :=
  (s.filter (fun t =>
    t.customer == customerId && t.businessDate == today &&
    (t.status == TokenStatus.waiting || t.status == TokenStatus.called ||
      t.status == TokenStatus.inService))).length

/-! ### Project queues (src/models/Queue.js, src/services/queueService.js)

The repository's queue-type ordering engine lives on the Queue model and
operates on Project documents (`queueId`, `queuePosition`, status
`queued`). -/

/-- Project status values used by the queue engine. -/
inductive ProjStatus
  | pending
  | queued
  | inProgress
  | completed
  | cancelled
  | failed
deriving DecidableEq, Repr

/-- A Project document, restricted to the fields the queue engine touches. -/
structure Project where
  id : Nat
  priority : Nat
  status : ProjStatus
  queueId : Option Nat
  queuePosition : Option Nat
deriving DecidableEq, Repr

/-- A Queue document, restricted to the fields read by removeProject and
reorderQueue (permission lists hold user ids). -/
structure QueueDoc where
  id : Nat
  createdBy : Nat
  owners : List Nat
  managers : List Nat
  workers : List Nat
  viewers : List Nat
  currentSize : Nat
deriving DecidableEq, Repr

/-- Mongo `{queuePosition: {$gt: k}}` against a document field that may be
missing: a missing field never matches. -/
def posGt (pos : Option Nat) (k : Option Nat) : Bool :=
  match pos, k with
  | some a, some b => b < a
  | _, _ => false

/-- queueSchema.methods.removeProject: requires the project to be in this
queue; decrements `queuePosition` of every project of this queue whose
position is greater than the removed project's position; decrements the
queue's size (floored at 0); clears the project's queue fields.  Returns
the updated queue document and project collection. -/
def removeProject (q : QueueDoc) (p : Project) (s : List Project) :
    Except String (QueueDoc × List Project) :=
  if p.queueId == some q.id then
    let shifted := s.map (fun r =>
      if r.queueId == some q.id && posGt r.queuePosition p.queuePosition then
        { r with queuePosition := r.queuePosition.map (fun m => m - 1) }
      else r)
    let cleared := shifted.map (fun r =>
      if r.id == p.id then { r with queueId := none, queuePosition := none }
      else r)
    .ok ({ q with currentSize := q.currentSize - 1 }, cleared)
  else
    .error "Project is not in this queue"

/-- `Project.findById` over our list state. -/
def findProj (s : List Project) (projectId : Nat) : Option Project :=
  s.find? (fun r => r.id == projectId)

/-- One `updateOne` of reorderQueue's bulkWrite: sets `queuePosition` to
`idx + 1` on the first document matching `{_id: pid, queueId: qid}`. -/
def updateFirst (s : List Project) (pid qid idx : Nat) : List Project :=
  match s with
  | [] => []
  | r :: rs =>
    if r.id == pid && r.queueId == some qid then
      { r with queuePosition := some (idx + 1) } :: rs
    else
      r :: updateFirst rs pid qid idx

/-- The sequential application of reorderQueue's bulkWrite updates: the
project listed at index `i` (0-based) receives position `idx + i + 1`. -/
def applyOrder (s : List Project) (order : List Nat) (qid idx : Nat) :
    List Project :=
  match order with
  | [] => s
  | pid :: rest => applyOrder (updateFirst s pid qid idx) rest qid (idx + 1)

/-- getQueueById's access filter in queueService.js: creator or any
permission role. -/
def canAccessQueue (q : QueueDoc) (userId : Nat) : Bool :=
  q.createdBy == userId || q.owners.contains userId ||
    q.managers.contains userId || q.workers.contains userId ||
    q.viewers.contains userId

/-- reorderQueue's permission test: creator, owner or manager. -/
def canReorder (q : QueueDoc) (userId : Nat) : Bool :=
  q.createdBy == userId || q.owners.contains userId ||
    q.managers.contains userId

/-- queueService.reorderQueue: after the access and permission checks it
applies the bulkWrite built from `projectOrder` directly.  It never
compares the given list with the queue's current membership and has no
InvalidReorder failure. -/
def reorderQueue (q : QueueDoc) (projectOrder : List Nat) (userId : Nat)
    (s : List Project) : Except String (List Project) :=
  if canAccessQueue q userId then
    if canReorder q userId then
      .ok (applyOrder s projectOrder q.id 0)
    else
      .error "Insufficient permissions to reorder queue"
  else
    .error "Queue not found or access denied"

end QMS

namespace SeqGen

/-! ### Sequence generator (tokenSchema.statics.generateTokenNumber)

Token numbers have the shape `CODE-YYYYMMDD-NNN`; all tokens of one
department and business date share the prefix `CODE-YYYYMMDD-`, so the
lexicographic order of their token-number strings is the lexicographic
order of their suffix strings.  A stored token is modelled by the numeric
value of its suffix; its stored string form is recomputed by `suffixStr`
(`String(n).padStart(3, '0')`). -/

/-- Fuel-driven digit extraction (the fuel only bounds the recursion, as
in core's Nat.toDigitsCore; any fuel above the digit count gives the same
answer). -/
def decDigitsCore : Nat → Nat → List Char
  | 0, _ => []
  | fuel + 1, n =>
    if n < 10 then [Nat.digitChar n]
    else decDigitsCore fuel (n / 10) ++ [Nat.digitChar (n % 10)]

/-- Decimal digit string of a natural number, as `String(n)` produces. -/
def decDigits (n : Nat) : List Char :=
  decDigitsCore (n + 1) n

/-- `padStart(3, '0')`. -/
def pad3 (s : List Char) : List Char :=
  List.replicate (3 - s.length) '0' ++ s

/-- The stored suffix string of a token whose numeric suffix is `n`. -/
def suffixStr (n : Nat) : List Char :=
  pad3 (decDigits n)

/-- Byte-wise lexicographic string comparison, as Mongo's default (simple
binary collation) sort uses. -/
def lexLt : List Char → List Char → Bool
  | [], [] => false
  | [], _ :: _ => true
  | _ :: _, [] => false
  | a :: as, b :: bs =>
    if a < b then true else if b < a then false else lexLt as bs

/-- `findOne({tokenNumber: {$regex: prefix}, ...}).sort({tokenNumber: -1})`:
the stored token whose (suffix) string is lexicographically greatest. -/
def lexMaxSuffix : List Nat → Option Nat
  | [] => none
  | n :: ns =>
    some (ns.foldl
      (fun acc m => if lexLt (suffixStr acc) (suffixStr m) then m else acc) n)

/-- `parseInt` of a decimal digit string. -/
def parseDec (s : List Char) : Nat :=
  s.foldl (fun acc c => acc * 10 + (c.toNat - 48)) 0

/-- tokenSchema.statics.generateTokenNumber, reduced to the numeric suffix
it returns: parse the suffix of the lexicographically last stored token
number and add one (1 when no token exists yet). -/
def generateTokenNumber (stored : List Nat) : Nat :=
  match lexMaxSuffix stored with
  | none => 1
  | some m => parseDec (suffixStr m) + 1

end SeqGen

namespace QMS

/-- A pure issuance run: issue one token per (customerId, priority) request
through tokenSchema.statics.generateToken, threading the state and a fresh
id counter.  No call/cancel/transfer happens in between. -/
def issueAll (d today now : Nat) : List (Nat × Nat) → List Token → Nat → List Token
  | [], s, _ => s
  | (c, p) :: rest, s, nextId =>
    issueAll d today now rest (generateToken s d none c p nextId today now).1 (nextId + 1)

/-- Every token of the state belongs to department `d`, is waiting, and
has business date `today` (the shape of issuance-only states). -/
def allDeptWaiting (s : List Token) (d today : Nat) : Prop :=
  ∀ t ∈ s, t.department = d ∧ t.status = TokenStatus.waiting ∧ t.businessDate = today

/-! ### Concrete states used by the counterexamples -/

/-- Department 1 after issuing token A (id 1, customer 20, priority 3). -/
def stA : List Token := (generateToken [] 1 none 20 3 1 100 0).1

/-- `stA` after issuing token B (id 2, customer 21, priority 8). -/
def stAB : List Token := (generateToken stA 1 none 21 8 2 100 1).1

/-- Department 1 after issuing three waiting tokens A, B, C with ids
1, 2, 3 at positions 1, 2, 3. -/
def st3 : List Token :=
  (generateToken
    (generateToken (generateToken [] 1 none 30 5 1 100 0).1 1 none 31 5 2 100 1).1
    1 none 32 5 3 100 2).1

/-- `st3` after cancelling token B (id 2). -/
def st3cancel : List Token := (cancelToken st3 2 99 "changed mind" 5).2

/-- `st3` after transferring token B (id 2) to the empty department 2. -/
def st3transfer : List Token := (transferToken st3 2 2 none "wrong dept" 99 5).2

/-- Two issuances for the same customer 10 on the same business date. -/
def stDup : List Token :=
  (generateToken (generateToken [] 1 none 10 5 1 100 0).1 1 none 10 5 2 100 1).1

/-- An idle counter of department 1. -/
def ctrIdle : Counter :=
  { id := 7, department := 1, status := .active, currentOperator := none
    currentToken := none, lastTokenCalledAt := none }

/-- A counter of department 1 that is already serving token 99. -/
def ctrBusy : Counter :=
  { id := 7, department := 1, status := .busy, currentOperator := some 3
    currentToken := some 99, lastTokenCalledAt := some 1 }

/-- A counter of department 5, where no waiting token exists in `st3`. -/
def ctrOther : Counter :=
  { id := 8, department := 5, status := .active, currentOperator := none
    currentToken := some 4, lastTokenCalledAt := some 2 }

/-- The C1 claim evaluated on the state reached by issue A, issue B,
cancel A: are the waiting positions of department 1 exactly {1..N}? -/
def c1claimB : Bool :=
  contiguousB (cancelToken stDup 1 99 "cancel A" 5).2 1

/-- The C3 claim evaluated on `stAB`: does B hold position 1 and A
position 2? -/
def c3claimB : Bool :=
  (((findTok stAB 2).bind fun t => t.queuePosition) == some 1) &&
    (((findTok stAB 1).bind fun t => t.queuePosition) == some 2)

/-- The C4 claim evaluated on `st3cancel`: did removing B compact the
remaining waiting positions to [A=1, C=2]? -/
def c4claimB : Bool :=
  waitingPositions st3cancel 1 == [some 1, some 2]

/-- The C5 claim evaluated on `st3transfer`: did the transfer compact the
origin's positions and give B a valid position in the destination? -/
def c5claimB : Bool :=
  contiguousB st3transfer 1 && contiguousB st3transfer 2

/-- The first token of `st3` (id 1, position 1), as stored. -/
def tokA : Token := mkToken 1 30 1 none 5 1 100 0

/-- The second token of `st3` (id 2, position 2), as stored. -/
def tokB : Token := mkToken 2 31 1 none 5 2 100 1

/-- A queue (id 1) created by user 5, with two queued projects. -/
def qd : QueueDoc :=
  { id := 1, createdBy := 5, owners := [], managers := [], workers := []
    viewers := [], currentSize := 3 }

/-- Project 1, queued in queue 1 at position 1. -/
def pr1 : Project :=
  { id := 1, priority := 5, status := .queued, queueId := some 1
    queuePosition := some 1 }

/-- Project 2, queued in queue 1 at position 2. -/
def pr2 : Project :=
  { id := 2, priority := 5, status := .queued, queueId := some 1
    queuePosition := some 2 }

/-- Project 3, queued in queue 1 at position 3. -/
def pr3 : Project :=
  { id := 3, priority := 5, status := .queued, queueId := some 1
    queuePosition := some 3 }

end QMS

namespace QMS

/-! ## Shared lemmas -/

theorem countActiveQueue_of_allDeptWaiting (s : List Token) (d today : Nat)
    (h : allDeptWaiting s d today) : countActiveQueue s d today = s.length := by
  unfold countActiveQueue
  rw [List.filter_eq_self.mpr]
  intro t ht
  obtain ⟨h1, h2, h3⟩ := h t ht
  simp [h1, h2, h3]

theorem waitingPositions_of_allDeptWaiting (s : List Token) (d today : Nat)
    (h : allDeptWaiting s d today) :
    waitingPositions s d = s.map (fun t => t.queuePosition) := by
  unfold waitingPositions
  rw [List.filter_eq_self.mpr]
  intro t ht
  obtain ⟨h1, h2, _⟩ := h t ht
  simp [h1, h2]

theorem issueAll_positions (d today now : Nat) (reqs : List (Nat × Nat)) :
    ∀ (s : List Token) (nextId : Nat), allDeptWaiting s d today →
      (issueAll d today now reqs s nextId).map (fun t => t.queuePosition)
          = s.map (fun t => t.queuePosition)
            ++ (List.range' (s.length + 1) reqs.length).map some
        ∧ allDeptWaiting (issueAll d today now reqs s nextId) d today := by
  induction reqs with
  | nil => intro s nextId hs; simp [issueAll, hs]
  | cons r rest ih =>
    intro s nextId hs
    obtain ⟨c, p⟩ := r
    have hs' : allDeptWaiting
        (s ++ [mkToken nextId c d none p (countActiveQueue s d today + 1) today now])
        d today := by
      intro t ht
      rcases List.mem_append.mp ht with h | h
      · exact hs t h
      · simp only [List.mem_singleton] at h
        subst h
        exact ⟨rfl, rfl, rfl⟩
    obtain ⟨hmap, hall⟩ := ih
      (s ++ [mkToken nextId c d none p (countActiveQueue s d today + 1) today now])
      (nextId + 1) hs'
    constructor
    · show (issueAll d today now rest
          (generateToken s d none c p nextId today now).1 (nextId + 1)).map
            (fun t => t.queuePosition) = _
      simp only [generateToken]
      rw [hmap]
      have hrange : List.range' (s.length + 1) (rest.length + 1)
          = (s.length + 1) :: List.range' (s.length + 2) rest.length := rfl
      simp [mkToken, countActiveQueue_of_allDeptWaiting s d today hs, hrange]
    · show allDeptWaiting (issueAll d today now rest
          (generateToken s d none c p nextId today now).1 (nextId + 1)) d today
      simpa only [generateToken] using hall

/-! ## Claim C1: position contiguity -/

/-- C1 counterexample.  The claim asserts contiguity after *any* sequence
of enqueue/remove operations.  Reachable state: issue token 1, issue
token 2, cancel token 1.  Cancellation changes only the cancelled token's
status, so the remaining waiting set of department 1 is {token 2 at
position 2} — positions [2], not [1]. -/
theorem c1_contiguity_counterexample :
    c1claimB = false ∧
      waitingPositions (cancelToken stDup 1 99 "cancel A" 5).2 1 = [some 2] := by
  constructor <;> decide

/-- C1 amended: contiguity holds for issuance-only histories.  Starting
from an empty department and issuing any number of tokens (no call,
cancellation, or transfer in between), the waiting positions are exactly
1..N in order; removal operations do not re-sequence the remaining
positions, so a gap can persist after them (see the counterexample). -/
theorem c1_issuance_only_contiguous (d today now startId : Nat)
    (reqs : List (Nat × Nat)) :
    waitingPositions (issueAll d today now reqs [] startId) d
        = (List.range' 1 reqs.length).map some
      ∧ contiguousB (issueAll d today now reqs [] startId) d = true := by
  have h0 : allDeptWaiting ([] : List Token) d today := by
    intro t ht
    simp at ht
  obtain ⟨hmap, hall⟩ := issueAll_positions d today now reqs [] startId h0
  have hw : waitingPositions (issueAll d today now reqs [] startId) d
      = (List.range' 1 reqs.length).map some := by
    rw [waitingPositions_of_allDeptWaiting _ _ today hall, hmap]
    simp
  refine ⟨hw, ?_⟩
  simp only [contiguousB, hw, List.length_map, List.length_range']
  exact decide_eq_true (List.Perm.refl _)

/-! ## Claim C2: single active token per customer and business date -/

/-- C2 counterexample.  Reachable state: issue a token for customer 10,
then issue a second token for the same customer on the same business
date.  Both issuances succeed (there is no duplicate check anywhere on
the issuance path), so customer 10 holds two tokens in `waiting`. -/
theorem c2_duplicate_active_counterexample : activeCount stDup 10 100 = 2 := by
  decide

/-- C2 amended: issuance is entirely unguarded with respect to the
customer's existing tokens.  Generating a token always adds one more
active (waiting) token for that customer and business date, whatever the
prior state — in particular a customer who already holds an active token
ends up with two. -/
theorem c2_issuance_unconditional (s : List Token) (d : Nat)
    (ctr : Option Nat) (c p id today now : Nat) :
    activeCount (generateToken s d ctr c p id today now).1 c today
      = activeCount s c today + 1 := by
  simp [generateToken, activeCount, mkToken, List.filter_append]

/-! ## Claim C3: priority example -/

/-- C3 counterexample.  After enqueueing A (id 1, priority 3) and then
B (id 2, priority 8) into department 1, the claim's positions (B at 1,
A at 2) do not hold: generateToken assigns positions by arrival count,
ignoring priority, so A holds position 1 and B position 2. -/
theorem c3_priority_position_counterexample : c3claimB = false := by decide

/-- C3 amended: positions are assigned in arrival order (A at 1, B at 2),
but callNextToken sorts by priority descending before position, so the
subsequent call-next for department 1 still returns B (id 2), moving it
to `called`. -/
theorem c3_arrival_positions_priority_call :
    ((findTok stAB 1).bind fun t => t.queuePosition) = some 1
      ∧ ((findTok stAB 2).bind fun t => t.queuePosition) = some 2
      ∧ ((callNextToken ctrIdle stAB 100 9).1.map fun t => t.id) = some 2
      ∧ ((callNextToken ctrIdle stAB 100 9).1.map fun t => t.status)
          = some TokenStatus.called := by
  refine ⟨by decide, by decide, by decide, by decide⟩

/-! ## Claim C4: removal compaction -/

theorem mem_updateTok_of_ne (s : List Token) (tid : Nat) (f : Token → Token)
    (t : Token) (ht : t ∈ s) (hne : t.id ≠ tid) : t ∈ updateTok s tid f := by
  unfold updateTok
  have h : (fun u => if u.id == tid then f u else u) t = t := by simp [hne]
  exact h ▸ List.mem_map_of_mem _ ht

theorem cancelToken_frame (ts : List Token) (tid uid : Nat) (reason : String)
    (now : Nat) (t : Token) (ht : t ∈ ts) (hne : t.id ≠ tid) :
    t ∈ (cancelToken ts tid uid reason now).2 := by
  unfold cancelToken
  cases h : findTok ts tid with
  | none => simpa using ht
  | some u =>
    by_cases hst : (u.status == TokenStatus.waiting
        || u.status == TokenStatus.called) = true
    · simpa [hst] using mem_updateTok_of_ne ts tid _ t ht hne
    · simp only [Bool.not_eq_true] at hst
      simpa [hst] using ht

/-- C4 counterexample.  Reachable state: department 1 holds waiting tokens
A, B, C at positions 1, 2, 3; cancel B.  The claim demands the remaining
positions [A=1, C=2]; the code leaves [A=1, C=3] — cancellation shifts
nothing. -/
theorem c4_no_compaction_counterexample :
    c4claimB = false ∧ waitingPositions st3cancel 1 = [some 1, some 3] := by
  constructor <;> decide

/-- C4 amended.  The decrement behaviour the claim describes exists only
in the project-queue engine: Queue.removeProject decrements by 1 the
position of every project of the queue whose position exceeds the removed
project's and leaves projects at or before it (or in other queues)
unchanged.  Removing a *token* from a department's waiting set via
cancellation, by contrast, adjusts no position at all: every other token
survives cancellation entirely unchanged. -/
theorem c4_remove_and_cancel_semantics
    (q : QueueDoc) (p : Project) (s : List Project) (k : Nat)
    (hq : p.queueId = some q.id) (hk : p.queuePosition = some k) :
    (∃ q' s', removeProject q p s = .ok (q', s')
      ∧ ∀ r ∈ s, r.id ≠ p.id →
          (∀ m, r.queueId = some q.id → r.queuePosition = some m → k < m →
            { r with queuePosition := some (m - 1) } ∈ s')
          ∧ (∀ m, r.queueId = some q.id → r.queuePosition = some m → m ≤ k →
              r ∈ s')
          ∧ (r.queueId ≠ some q.id → r ∈ s'))
    ∧ ∀ (ts : List Token) (tid uid : Nat) (reason : String) (now : Nat)
        (t : Token), t ∈ ts → t.id ≠ tid →
          t ∈ (cancelToken ts tid uid reason now).2 := by
  constructor
  · refine ⟨{ q with currentSize := q.currentSize - 1 },
      (s.map (fun r =>
        if r.queueId == some q.id && posGt r.queuePosition p.queuePosition then
          { r with queuePosition := r.queuePosition.map (fun m => m - 1) }
        else r)).map (fun r =>
          if r.id == p.id then { r with queueId := none, queuePosition := none }
          else r), ?_, ?_⟩
    · simp [removeProject, hq]
    · intro r hr hrid
      refine ⟨?_, ?_, ?_⟩
      · intro m hrq hrm hkm
        have h1 : (fun r : Project =>
            if r.queueId == some q.id && posGt r.queuePosition p.queuePosition then
              { r with queuePosition := r.queuePosition.map (fun m => m - 1) }
            else r) r = { r with queuePosition := some (m - 1) } := by
          simp [hrq, hrm, hk, posGt, hkm]
        have h2 : (fun r : Project =>
            if r.id == p.id then { r with queueId := none, queuePosition := none }
            else r) { r with queuePosition := some (m - 1) }
              = { r with queuePosition := some (m - 1) } := by
          simp [hrid]
        exact h2 ▸ List.mem_map_of_mem _ (h1 ▸ List.mem_map_of_mem _ hr)
      · intro m hrq hrm hmk
        have h1 : (fun r : Project =>
            if r.queueId == some q.id && posGt r.queuePosition p.queuePosition then
              { r with queuePosition := r.queuePosition.map (fun m => m - 1) }
            else r) r = r := by
          simp [hrm, hk, posGt, Nat.not_lt.mpr hmk]
        have h2 : (fun r : Project =>
            if r.id == p.id then { r with queueId := none, queuePosition := none }
            else r) r = r := by
          simp [hrid]
        exact h2 ▸ List.mem_map_of_mem _ (h1 ▸ List.mem_map_of_mem _ hr)
      · intro hrq
        have h1 : (fun r : Project =>
            if r.queueId == some q.id && posGt r.queuePosition p.queuePosition then
              { r with queuePosition := r.queuePosition.map (fun m => m - 1) }
            else r) r = r := by
          simp [hrq]
        have h2 : (fun r : Project =>
            if r.id == p.id then { r with queueId := none, queuePosition := none }
            else r) r = r := by
          simp [hrid]
        exact h2 ▸ List.mem_map_of_mem _ (h1 ▸ List.mem_map_of_mem _ hr)
  · exact fun ts tid uid reason now t ht hne =>
      cancelToken_frame ts tid uid reason now t ht hne

/-- C4 witness: the amended statement applied to queue 1 with projects
1, 2, 3 at positions 1, 2, 3, removing project 2. -/
theorem c4_remove_and_cancel_semantics_witness :
    (∃ q' s', removeProject qd pr2 [pr1, pr2, pr3] = .ok (q', s')
      ∧ ∀ r ∈ [pr1, pr2, pr3], r.id ≠ pr2.id →
          (∀ m, r.queueId = some qd.id → r.queuePosition = some m → 2 < m →
            { r with queuePosition := some (m - 1) } ∈ s')
          ∧ (∀ m, r.queueId = some qd.id → r.queuePosition = some m → m ≤ 2 →
              r ∈ s')
          ∧ (r.queueId ≠ some qd.id → r ∈ s'))
    ∧ ∀ (ts : List Token) (tid uid : Nat) (reason : String) (now : Nat)
        (t : Token), t ∈ ts → t.id ≠ tid →
          t ∈ (cancelToken ts tid uid reason now).2 :=
  c4_remove_and_cancel_semantics qd pr2 [pr1, pr2, pr3] 2 rfl rfl

/-! ## Claim C5: transfer round-trip -/

theorem findTok_updateTok (s : List Token) (tid : Nat) (f : Token → Token)
    (hid : ∀ u, (f u).id = u.id) (t : Token) (h : findTok s tid = some t) :
    findTok (updateTok s tid f) tid = some (f t) := by
  induction s with
  | nil => simp [findTok] at h
  | cons a as ih =>
    unfold findTok at h ⊢
    unfold updateTok
    rw [List.map_cons]
    by_cases ha : (a.id == tid) = true
    · obtain rfl : a = t := by
        simp only [List.find?_cons, ha] at h
        exact Option.some_inj.mp h
      rw [if_pos ha]
      have hfa : ((f a).id == tid) = true := by rw [hid]; exact ha
      simp only [List.find?_cons, hfa]
    · simp only [List.find?_cons] at h
      rw [Bool.not_eq_true] at ha
      rw [ha] at h
      rw [if_neg (by simp [ha])]
      simp only [List.find?_cons, ha]
      exact ih h

/-- C5 counterexample.  Reachable state: department 1 holds waiting tokens
at positions 1, 2, 3; token B (id 2, position 2) is transferred to the
empty department 2.  The claim demands a compacted origin ([1, 2]) and a
fresh valid position in the destination ([1]); the code instead leaves the
origin at [1, 3] and carries B's old position 2 into department 2, whose
waiting positions become [2]. -/
theorem c5_transfer_counterexample :
    c5claimB = false
      ∧ waitingPositions st3transfer 1 = [some 1, some 3]
      ∧ waitingPositions st3transfer 2 = [some 2] := by
  refine ⟨by decide, by decide, by decide⟩

/-- C5 amended: transferring a `waiting` token succeeds and re-labels the
token with the destination department, the target counter and status
`waiting`, appending a transfer-history entry — but the token keeps its
*old* queue position (none is assigned by any destination policy), and
every other token, in particular the origin department's remaining
waiting set, is left completely unchanged (no compaction). -/
theorem c5_transfer_semantics (s : List Token) (tid dept : Nat)
    (ctr : Option Nat) (reason : String) (uid now : Nat) (t : Token)
    (hf : findTok s tid = some t) (hw : t.status = TokenStatus.waiting) :
    ∃ s', transferToken s tid dept ctr reason uid now = (.ok (), s')
      ∧ findTok s' tid = some { t with
          department := dept
          counter := ctr
          status := .waiting
          transferHistory := t.transferHistory
            ++ [{ fromDept := t.department, fromCounter := t.counter
                  toDept := dept, toCounter := ctr, reason := reason
                  transferredBy := uid, transferredAt := now }] }
      ∧ ∀ r ∈ s, r.id ≠ tid → r ∈ s' := by
  refine ⟨updateTok s tid (fun u =>
    { u with
        department := dept
        counter := ctr
        status := .waiting
        transferHistory := u.transferHistory
          ++ [{ fromDept := u.department, fromCounter := u.counter
                toDept := dept, toCounter := ctr, reason := reason
                transferredBy := uid, transferredAt := now }] }), ?_, ?_, ?_⟩
  · simp [transferToken, hf, hw]
  · exact findTok_updateTok s tid
      (fun u =>
        { u with
            department := dept
            counter := ctr
            status := .waiting
            transferHistory := u.transferHistory
              ++ [{ fromDept := u.department, fromCounter := u.counter
                    toDept := dept, toCounter := ctr, reason := reason
                    transferredBy := uid, transferredAt := now }] })
      (fun u => rfl) t hf
  · intro r hr hne
    exact mem_updateTok_of_ne s tid _ r hr hne

/-- C5 witness: the amended statement applied to `st3` and token B. -/
theorem c5_transfer_semantics_witness :
    ∃ s', transferToken st3 2 2 none "wrong dept" 99 5 = (.ok (), s')
      ∧ findTok s' 2 = some { tokB with
          department := 2
          counter := none
          status := .waiting
          transferHistory := tokB.transferHistory
            ++ [{ fromDept := tokB.department, fromCounter := tokB.counter
                  toDept := 2, toCounter := none, reason := "wrong dept"
                  transferredBy := 99, transferredAt := 5 }] }
      ∧ ∀ r ∈ st3, r.id ≠ 2 → r ∈ s' :=
  c5_transfer_semantics st3 2 2 none "wrong dept" 99 5 tokB (by decide) rfl

/-! ## Claim C6: completeService on a waiting token -/

/-- C6 confirmed: completeToken checks the status before writing anything,
so on a `waiting` token it fails with the controller's invalid-transition
error, `AppError('Token is not being served', 400)`, and returns the
collection state bit-for-bit unchanged: no status change, no timestamp or
service-time write, no partial update. -/
theorem c6_complete_waiting_rejected (s : List Token) (tid : Nat)
    (notes : Option String) (rating : Option Nat) (now : Nat) (t : Token)
    (hf : findTok s tid = some t) (hw : t.status = TokenStatus.waiting) :
    completeToken s tid notes rating now
      = (.error ⟨"Token is not being served", 400⟩, s) := by
  simp [completeToken, hf, hw]

/-- C6 witness: token 1 of `st3` is waiting; completing it fails and
leaves the state unchanged. -/
theorem c6_complete_waiting_rejected_witness :
    completeToken st3 1 none none 99
      = (.error ⟨"Token is not being served", 400⟩, st3) :=
  c6_complete_waiting_rejected st3 1 none none 99 tokA (by decide) rfl

/-! ## Claims C8/C10: callNextToken -/

theorem foldPick_isSome (l : List Token) :
    ∀ u : Token,
      (l.foldl
        (fun acc t =>
          match acc with
          | none => some t
          | some v => if sortsBefore t v then some t else some v)
        (some u)).isSome = true := by
  induction l with
  | nil => intro u; rfl
  | cons a as ih =>
    intro u
    show (as.foldl _
      (match some u with
        | none => some a
        | some v => if sortsBefore a v then some a else some v)).isSome = true
    by_cases h : sortsBefore a u = true
    · simpa [h] using ih a
    · simp only [Bool.not_eq_true] at h
      simpa [h] using ih u

theorem pickNext_isSome_of_mem (s : List Token) (p : Token → Bool) (t : Token)
    (ht : t ∈ s) (hp : p t = true) : (pickNext s p).isSome = true := by
  unfold pickNext
  have hmem : t ∈ s.filter p := List.mem_filter.mpr ⟨ht, hp⟩
  cases hfp : s.filter p with
  | nil => rw [hfp] at hmem; simp at hmem
  | cons a as =>
    simpa using foldPick_isSome as a

theorem pickNext_none_of_all (s : List Token) (p : Token → Bool)
    (h : ∀ t ∈ s, p t = false) : pickNext s p = none := by
  unfold pickNext
  rw [List.filter_eq_nil_iff.mpr (fun t ht => by simp [h t ht])]
  rfl

/-- C8 counterexample.  Reachable inputs: `ctrBusy` is a counter of
department 1 already holding `currentToken = some 99`, and `st3` has
waiting tokens.  The claim demands a CounterBusy failure that calls and
reserves nothing; instead callNextToken calls token 1 and overwrites
`currentToken` with it. -/
theorem c8_busy_counterexample :
    ctrBusy.currentToken = some 99
      ∧ ((callNextToken ctrBusy st3 100 9).1.map fun t => t.id) = some 1
      ∧ (callNextToken ctrBusy st3 100 9).2.1.currentToken = some 1
      ∧ ((callNextToken ctrBusy st3 100 9).1.map fun t => t.status)
          = some TokenStatus.called := by
  refine ⟨rfl, by decide, by decide, by decide⟩

/-- C8 amended: callNextToken performs no busy check at all.  Whatever the
counter's `currentToken` holds, as soon as an eligible waiting token
exists the counter calls it, overwrites `currentToken` with its id and
becomes `busy`; a CounterBusy failure does not exist on this path. -/
theorem c8_callnext_ignores_busy (c : Counter) (s : List Token)
    (today now tk : Nat) (_hbusy : c.currentToken = some tk)
    (t : Token) (ht : t ∈ s) (helig : eligibleNext c today t = true) :
    ∃ nt, pickNext s (eligibleNext c today) = some nt
      ∧ (callNextToken c s today now).1
          = some (callTok nt c.id c.currentOperator now)
      ∧ (callNextToken c s today now).2.1.currentToken = some nt.id
      ∧ (callNextToken c s today now).2.1.status = CounterStatus.busy := by
  obtain ⟨nt, hnt⟩ := Option.isSome_iff_exists.mp
    (pickNext_isSome_of_mem s (eligibleNext c today) t ht helig)
  refine ⟨nt, hnt, ?_, ?_, ?_⟩ <;> simp [callNextToken, hnt]

/-- C8 witness: the amended statement applied to the busy counter and
`st3`. -/
theorem c8_callnext_ignores_busy_witness :
    ∃ nt, pickNext st3 (eligibleNext ctrBusy 100) = some nt
      ∧ (callNextToken ctrBusy st3 100 9).1
          = some (callTok nt ctrBusy.id ctrBusy.currentOperator 9)
      ∧ (callNextToken ctrBusy st3 100 9).2.1.currentToken = some nt.id
      ∧ (callNextToken ctrBusy st3 100 9).2.1.status = CounterStatus.busy :=
  c8_callnext_ignores_busy ctrBusy st3 100 9 99 rfl tokA (by decide) (by decide)

/-- C10 confirmed: when the counter's department has no waiting token for
the business date, callNextToken returns null before mutating anything:
the counter keeps its `currentToken`, `status` and `lastTokenCalledAt`,
and the token collection is untouched. -/
theorem c10_callnext_no_waiting (c : Counter) (s : List Token)
    (today now : Nat) (h : ∀ t ∈ s, eligibleNext c today t = false) :
    callNextToken c s today now = (none, c, s) := by
  unfold callNextToken
  rw [pickNext_none_of_all s _ h]

/-- C10 witness: `ctrOther` belongs to department 5, where `st3` has no
waiting token; callNextToken changes nothing. -/
theorem c10_callnext_no_waiting_witness :
    callNextToken ctrOther st3 100 9 = (none, ctrOther, st3) :=
  c10_callnext_no_waiting ctrOther st3 100 9 (by decide)

/-! ## Claim C9: administrative reorder -/

theorem findProj_updateFirst_ne (s : List Project) (pid qid idx rid : Nat)
    (h : rid ≠ pid) :
    findProj (updateFirst s pid qid idx) rid = findProj s rid := by
  induction s with
  | nil => rfl
  | cons a as ih =>
    unfold findProj at ih ⊢
    unfold updateFirst
    by_cases hc : (a.id == pid && a.queueId == some qid) = true
    · rw [if_pos hc]
      obtain ⟨h1, _⟩ := Bool.and_eq_true_iff.mp hc
      have hne : (a.id == rid) = false := by
        rw [beq_eq_false_iff_ne]
        rw [beq_iff_eq] at h1
        omega
      simp only [List.find?_cons, hne]
    · rw [if_neg hc]
      by_cases ha : (a.id == rid) = true
      · simp only [List.find?_cons, ha]
      · rw [Bool.not_eq_true] at ha
        simp only [List.find?_cons, ha]
        exact ih

theorem findProj_updateFirst_hit (s : List Project) (pid qid idx : Nat)
    (r : Project) (h : findProj s pid = some r) (hq : r.queueId = some qid) :
    findProj (updateFirst s pid qid idx) pid
      = some { r with queuePosition := some (idx + 1) } := by
  induction s with
  | nil => simp [findProj] at h
  | cons a as ih =>
    unfold findProj at h ih ⊢
    unfold updateFirst
    by_cases ha : (a.id == pid) = true
    · obtain rfl : a = r := by
        simp only [List.find?_cons, ha] at h
        exact Option.some_inj.mp h
      have hc : (a.id == pid && a.queueId == some qid) = true := by
        simp [ha, hq]
      rw [if_pos hc]
      simp only [List.find?_cons, ha]
    · have hc : (a.id == pid && a.queueId == some qid) = false := by
        simp only [Bool.not_eq_true] at ha
        simp [ha]
      rw [if_neg (by simp [hc])]
      rw [Bool.not_eq_true] at ha
      simp only [List.find?_cons, ha] at h ⊢
      exact ih h

theorem findProj_applyOrder_notmem (order : List Nat) :
    ∀ (s : List Project) (qid idx rid : Nat), rid ∉ order →
      findProj (applyOrder s order qid idx) rid = findProj s rid := by
  induction order with
  | nil => intro s qid idx rid _; rfl
  | cons pid rest ih =>
    intro s qid idx rid hn
    have h1 : rid ≠ pid := fun hr => hn (hr ▸ List.mem_cons_self pid rest)
    have h2 : rid ∉ rest := fun hr => hn (List.mem_cons_of_mem pid hr)
    show findProj (applyOrder (updateFirst s pid qid idx) rest qid (idx + 1)) rid
      = findProj s rid
    rw [ih (updateFirst s pid qid idx) qid (idx + 1) rid h2]
    exact findProj_updateFirst_ne s pid qid idx rid h1

theorem findProj_applyOrder_hit (order : List Nat) :
    ∀ (s : List Project) (qid idx i rid : Nat) (r : Project),
      order.Nodup → order.get? i = some rid → findProj s rid = some r →
      r.queueId = some qid →
      findProj (applyOrder s order qid idx) rid
        = some { r with queuePosition := some (idx + i + 1) } := by
  induction order with
  | nil => intro s qid idx i rid r _ hi; simp at hi
  | cons pid rest ih =>
    intro s qid idx i rid r hnd hi hf hq
    obtain ⟨hpid, hndrest⟩ := List.nodup_cons.mp hnd
    cases i with
    | zero =>
      have hpr : pid = rid := Option.some_inj.mp hi
      show findProj (applyOrder (updateFirst s pid qid idx) rest qid (idx + 1)) rid
        = some { r with queuePosition := some (idx + 0 + 1) }
      rw [hpr] at hpid ⊢
      rw [findProj_applyOrder_notmem rest (updateFirst s rid qid idx) qid (idx + 1)
        rid hpid]
      exact findProj_updateFirst_hit s rid qid idx r hf hq
    | succ j =>
      have hij : rest.get? j = some rid := hi
      have hmem : rid ∈ rest := List.get?_mem hij
      have hne : rid ≠ pid := fun hr => hpid (hr ▸ hmem)
      show findProj (applyOrder (updateFirst s pid qid idx) rest qid (idx + 1)) rid
        = some { r with queuePosition := some (idx + (j + 1) + 1) }
      have hf' : findProj (updateFirst s pid qid idx) rid = some r := by
        rw [findProj_updateFirst_ne s pid qid idx rid hne]
        exact hf
      have := ih (updateFirst s pid qid idx) qid (idx + 1) j rid r hndrest hij hf' hq
      rw [this]
      have harith : idx + 1 + j + 1 = idx + (j + 1) + 1 := by omega
      rw [harith]

/-- C9 counterexample.  Queue 1 holds projects 1 and 2 at positions 1
and 2; the supplied order [2] does not match the membership (project 1 is
missing).  The claim demands an InvalidReorder failure with no change;
the code instead succeeds and sets project 2's position to 1, leaving
project 1 at position 1 as well — two projects now share position 1. -/
theorem c9_reorder_counterexample :
    reorderQueue qd [2] 5 [pr1, pr2]
      = .ok [pr1, { pr2 with queuePosition := some 1 }] := by
  rfl

/-- C9 amended: reorderQueue validates nothing about membership.  After
the access and role checks it always succeeds: each listed project that
belongs to the queue receives position (its index in the list) + 1,
projects not listed keep their previous state (listed ids that are not in
the queue are silently ignored), and no InvalidReorder failure exists. -/
theorem c9_reorder_semantics (q : QueueDoc) (order : List Nat) (u : Nat)
    (s : List Project) (ha : canAccessQueue q u = true)
    (hr : canReorder q u = true) (hnd : order.Nodup) :
    ∃ s', reorderQueue q order u s = .ok s'
      ∧ (∀ rid, rid ∉ order → findProj s' rid = findProj s rid)
      ∧ (∀ i rid r, order.get? i = some rid → findProj s rid = some r →
          r.queueId = some q.id →
          findProj s' rid = some { r with queuePosition := some (i + 1) }) := by
  refine ⟨applyOrder s order q.id 0, ?_, ?_, ?_⟩
  · simp [reorderQueue, ha, hr]
  · intro rid hn
    exact findProj_applyOrder_notmem order s q.id 0 rid hn
  · intro i rid r hi hf hq
    have := findProj_applyOrder_hit order s q.id 0 i rid r hnd hi hf hq
    simpa using this

/-- C9 witness: the amended statement applied to queue 1, projects 1 and
2, and the order [2, 1]. -/
theorem c9_reorder_semantics_witness :
    ∃ s', reorderQueue qd [2, 1] 5 [pr1, pr2] = .ok s'
      ∧ (∀ rid, rid ∉ [2, 1] → findProj s' rid = findProj [pr1, pr2] rid)
      ∧ (∀ i rid r, [2, 1].get? i = some rid →
          findProj [pr1, pr2] rid = some r → r.queueId = some qd.id →
          findProj s' rid = some { r with queuePosition := some (i + 1) }) :=
  c9_reorder_semantics qd [2, 1] 5 [pr1, pr2] (by decide) (by decide) (by decide)

end QMS

namespace SeqGen

/-! ## Claim C7: the sequence generator -/

theorem decDigitsCore_fuel : ∀ f1 m, m < f1 → ∀ f2, m < f2 →
    decDigitsCore f1 m = decDigitsCore f2 m := by
  intro f1
  induction f1 with
  | zero => intro m hm; omega
  | succ f ih =>
    intro m _ f2 hm2
    cases f2 with
    | zero => omega
    | succ g =>
      show decDigitsCore (f + 1) m = decDigitsCore (g + 1) m
      unfold decDigitsCore
      by_cases h10 : m < 10
      · rw [if_pos h10, if_pos h10]
      · rw [if_neg h10, if_neg h10]
        have hdiv0 : m / 10 < m := Nat.div_lt_self (by omega) (by omega)
        have hdiv : m / 10 < f := by omega
        have hdiv2 : m / 10 < g := by omega
        rw [ih (m / 10) hdiv g hdiv2]

theorem decDigits_lt10 (n : Nat) (h : n < 10) :
    decDigits n = [Nat.digitChar n] := by
  unfold decDigits decDigitsCore
  rw [if_pos h]

theorem decDigits_ge10 (n : Nat) (h : 10 ≤ n) :
    decDigits n = decDigits (n / 10) ++ [Nat.digitChar (n % 10)] := by
  have hdiv : n / 10 < n := Nat.div_lt_self (by omega) (by omega)
  show decDigitsCore (n + 1) n = decDigitsCore (n / 10 + 1) (n / 10)
    ++ [Nat.digitChar (n % 10)]
  rw [decDigitsCore_fuel (n / 10 + 1) (n / 10) (by omega) n (by omega)]
  show (if n < 10 then [Nat.digitChar n]
      else decDigitsCore n (n / 10) ++ [Nat.digitChar (n % 10)])
    = decDigitsCore n (n / 10) ++ [Nat.digitChar (n % 10)]
  rw [if_neg (by omega)]

theorem digitChar_zero : Nat.digitChar 0 = '0' := rfl

theorem suffixStr_digits (n : Nat) (h : n ≤ 999) :
    suffixStr n = [Nat.digitChar (n / 100), Nat.digitChar (n / 10 % 10),
      Nat.digitChar (n % 10)] := by
  by_cases h1 : n < 10
  · have e2 : n / 100 = 0 := by omega
    have e3 : n / 10 % 10 = 0 := by omega
    have e4 : n % 10 = n := by omega
    rw [suffixStr, decDigits_lt10 n h1, e2, e3, e4, digitChar_zero, pad3]
    rfl
  · by_cases h2 : n < 100
    · have e2 : n / 100 = 0 := by omega
      have e3 : n / 10 % 10 = n / 10 := by omega
      rw [suffixStr, decDigits_ge10 n (by omega),
        decDigits_lt10 (n / 10) (by omega), e2, e3, digitChar_zero, pad3]
      rfl
    · have h3 : n / 10 / 10 = n / 100 := by
        rw [Nat.div_div_eq_div_mul]
      rw [suffixStr, decDigits_ge10 n (by omega),
        decDigits_ge10 (n / 10) (by omega), h3,
        decDigits_lt10 (n / 100) (by omega), pad3]
      rfl

theorem digitChar_lt_iff : ∀ d, d < 10 → ∀ e, e < 10 →
    ((Nat.digitChar d < Nat.digitChar e) ↔ d < e) := by decide

theorem digitChar_toNat : ∀ d, d < 10 → (Nat.digitChar d).toNat = 48 + d := by
  decide

theorem lexLt_cons (a b : Char) (as bs : List Char) :
    lexLt (a :: as) (b :: bs)
      = if a < b then true else if b < a then false else lexLt as bs := rfl

theorem lexLt_suffixStr (a b : Nat) (ha : a ≤ 999) (hb : b ≤ 999) :
    (lexLt (suffixStr a) (suffixStr b) = true) ↔ a < b := by
  rw [suffixStr_digits a ha, suffixStr_digits b hb]
  simp only [lexLt_cons]
  have b2a : a / 100 < 10 := by omega
  have b2b : b / 100 < 10 := by omega
  have b1a : a / 10 % 10 < 10 := by omega
  have b1b : b / 10 % 10 < 10 := by omega
  have b0a : a % 10 < 10 := by omega
  have b0b : b % 10 < 10 := by omega
  have c2 := digitChar_lt_iff (a / 100) b2a (b / 100) b2b
  have c2' := digitChar_lt_iff (b / 100) b2b (a / 100) b2a
  have c1 := digitChar_lt_iff (a / 10 % 10) b1a (b / 10 % 10) b1b
  have c1' := digitChar_lt_iff (b / 10 % 10) b1b (a / 10 % 10) b1a
  have c0 := digitChar_lt_iff (a % 10) b0a (b % 10) b0b
  have c0' := digitChar_lt_iff (b % 10) b0b (a % 10) b0a
  split_ifs with h1 h2 h3 h4 h5 h6 <;>
    simp only [c2, c2', c1, c1', c0, c0',
      show (lexLt [] [] : Bool) = false from rfl] at * <;>
    constructor <;> intro hx <;>
    first
      | rfl
      | trivial
      | omega

theorem parseDec_suffixStr (n : Nat) (h : n ≤ 999) :
    parseDec (suffixStr n) = n := by
  rw [suffixStr_digits n h]
  unfold parseDec
  simp only [List.foldl]
  rw [digitChar_toNat (n / 100) (by omega),
    digitChar_toNat (n / 10 % 10) (by omega),
    digitChar_toNat (n % 10) (by omega)]
  omega

theorem lexFold_eq_maxFold (ns : List Nat) :
    ∀ n, n ≤ 999 → (∀ m ∈ ns, m ≤ 999) →
      ns.foldl (fun acc m =>
          if lexLt (suffixStr acc) (suffixStr m) then m else acc) n
        = ns.foldl (fun acc m => max acc m) n := by
  induction ns with
  | nil => intro n _ _; rfl
  | cons m ms ih =>
    intro n hn hms
    have hm : m ≤ 999 := hms m (List.mem_cons_self m ms)
    have hhead : (if lexLt (suffixStr n) (suffixStr m) then m else n)
        = max n m := by
      by_cases hc : lexLt (suffixStr n) (suffixStr m) = true
      · rw [if_pos hc]
        have := (lexLt_suffixStr n m hn hm).mp hc
        exact (Nat.max_eq_right (Nat.le_of_lt this)).symm
      · rw [if_neg hc]
        have hnm : ¬ n < m := fun hlt => hc ((lexLt_suffixStr n m hn hm).mpr hlt)
        exact (Nat.max_eq_left (by omega)).symm
    show ms.foldl _ (if lexLt (suffixStr n) (suffixStr m) then m else n)
      = ms.foldl _ (max n m)
    rw [hhead]
    exact ih (max n m) (Nat.max_le.mpr ⟨hn, hm⟩)
      (fun x hx => hms x (List.mem_cons_of_mem m hx))

theorem foldl_max_mem (ns : List Nat) : ∀ n, ns.foldl max n ∈ n :: ns := by
  induction ns with
  | nil => intro n; simp [List.foldl]
  | cons m ms ih =>
    intro n
    have h := ih (max n m)
    show ms.foldl max (max n m) ∈ n :: m :: ms
    rcases List.mem_cons.mp h with h1 | h1
    · rcases max_choice n m with h2 | h2
      · rw [h1, h2]; exact List.mem_cons_self n (m :: ms)
      · rw [h1, h2]; exact List.mem_cons_of_mem n (List.mem_cons_self m ms)
    · exact List.mem_cons_of_mem n (List.mem_cons_of_mem m h1)

theorem foldl_max_le (ns : List Nat) : ∀ n, ∀ x ∈ n :: ns, x ≤ ns.foldl max n := by
  induction ns with
  | nil =>
    intro n x hx
    simp only [List.mem_singleton] at hx
    subst hx
    exact Nat.le_refl x
  | cons m ms ih =>
    intro n x hx
    show x ≤ ms.foldl max (max n m)
    rcases List.mem_cons.mp hx with rfl | hx'
    · exact Nat.le_trans (Nat.le_max_left x m)
        (ih (max x m) _ (List.mem_cons_self _ ms))
    · rcases List.mem_cons.mp hx' with rfl | hx''
      · exact Nat.le_trans (Nat.le_max_right n x)
          (ih (max n x) _ (List.mem_cons_self _ ms))
      · exact ih (max n m) x (List.mem_cons_of_mem _ hx'')

/-- C7 counterexample.  Stored suffixes {999, 1000} (the state the
generator itself produces right after crossing 999: `...-999` then
`...-1000`).  The lexicographically greatest token-number string is
"999" (since '9' > '1'), so the generator returns 999 + 1 = 1000 — a
number that already exists — instead of the highest numeric suffix plus
one (1001).  Successive numbers are therefore not monotonic and collide
beyond suffix 999. -/
theorem c7_sequence_collision_counterexample :
    SeqGen.generateTokenNumber [999, 1000] = 1000
      ∧ (1000 : Nat) ∈ [999, 1000] := by
  refine ⟨?_, by simp⟩
  have h999 : suffixStr 999 = ['9', '9', '9'] := by
    rw [suffixStr_digits 999 (by omega)]
    rfl
  have e3 : decDigits 1000 = decDigits 100 ++ [Nat.digitChar 0] := by
    have hd : (1000 : Nat) / 10 = 100 := by norm_num
    have hm : (1000 : Nat) % 10 = 0 := by norm_num
    rw [decDigits_ge10 1000 (by omega), hd, hm]
  have e2 : decDigits 100 = decDigits 10 ++ [Nat.digitChar 0] := by
    have hd : (100 : Nat) / 10 = 10 := by norm_num
    have hm : (100 : Nat) % 10 = 0 := by norm_num
    rw [decDigits_ge10 100 (by omega), hd, hm]
  have e1 : decDigits 10 = decDigits 1 ++ [Nat.digitChar 0] := by
    have hd : (10 : Nat) / 10 = 1 := by norm_num
    have hm : (10 : Nat) % 10 = 0 := by norm_num
    rw [decDigits_ge10 10 (by omega), hd, hm]
  have e0 : decDigits 1 = [Nat.digitChar 1] := decDigits_lt10 1 (by omega)
  have h1000 : suffixStr 1000 = ['1', '0', '0', '0'] := by
    rw [suffixStr, e3, e2, e1, e0]
    rfl
  show parseDec (suffixStr
      (if lexLt (suffixStr 999) (suffixStr 1000) then 1000 else 999)) + 1 = 1000
  rw [h999, h1000]
  have hlex : lexLt ['9', '9', '9'] ['1', '0', '0', '0'] = false := rfl
  rw [hlex]
  simp only [Bool.false_eq_true, if_false]
  rw [h999]
  rfl

/-- C7 amended: the generator is the numeric maximum plus one — hence
strictly above every stored suffix, fresh, and monotonic — *provided*
every stored suffix is at most 999 (all stored strings then have exactly
three digits, so the lexicographic maximum is the numeric maximum).  With
a four-digit suffix present the lexicographic scan can select a smaller
numeric suffix and collide, as the counterexample shows. -/
theorem c7_generate_below_1000 (stored : List Nat) (hne : stored ≠ [])
    (hb : ∀ m ∈ stored, m ≤ 999) :
    ∃ mx, mx ∈ stored ∧ (∀ m ∈ stored, m ≤ mx)
      ∧ SeqGen.generateTokenNumber stored = mx + 1
      ∧ SeqGen.generateTokenNumber stored ∉ stored := by
  obtain ⟨n, ns, rfl⟩ := List.exists_cons_of_ne_nil hne
  have hn : n ≤ 999 := hb n (List.mem_cons_self n ns)
  have hns : ∀ m ∈ ns, m ≤ 999 := fun m hm => hb m (List.mem_cons_of_mem n hm)
  have hmx_mem : ns.foldl max n ∈ n :: ns := foldl_max_mem ns n
  have hmx_le : ∀ x ∈ n :: ns, x ≤ ns.foldl max n := foldl_max_le ns n
  have hmx999 : ns.foldl max n ≤ 999 := hb _ hmx_mem
  have hgen : SeqGen.generateTokenNumber (n :: ns) = ns.foldl max n + 1 := by
    show parseDec (suffixStr (ns.foldl
      (fun acc m => if lexLt (suffixStr acc) (suffixStr m) then m else acc) n)) + 1
        = ns.foldl max n + 1
    rw [lexFold_eq_maxFold ns n hn hns, parseDec_suffixStr _ hmx999]
  refine ⟨ns.foldl max n, hmx_mem, hmx_le, hgen, ?_⟩
  intro hmem
  rw [hgen] at hmem
  have := hmx_le _ hmem
  omega

/-- C7 witness: the amended statement applied to stored suffixes
[1, 3, 2]: the generator returns 4, which is fresh. -/
theorem c7_generate_below_1000_witness :
    ∃ mx, mx ∈ [1, 3, 2] ∧ (∀ m ∈ [1, 3, 2], m ≤ mx)
      ∧ SeqGen.generateTokenNumber [1, 3, 2] = mx + 1
      ∧ SeqGen.generateTokenNumber [1, 3, 2] ∉ [1, 3, 2] :=
  c7_generate_below_1000 [1, 3, 2] (by decide) (by decide)

end SeqGen
